import Mathlib

/-!
Formal model of the virtual-memory subsystem of `src/memory/vmem/mod.rs`.

Per-core privileged CPU state (interrupt flag, CR3, CR0) is modelled as an
explicit record threaded through each operation; Rust closures become pure
state transformers `CpuState → T × CpuState`.  The architecture-specific
page-table backend (`x86::X86VMem`), the register intrinsics (`cpu::cr0_*`,
`cpu::cr3_get`), `idt::wrap_disable_interrupts` and the ELF helpers are not
part of the sources at hand; they are modelled from the specification (and
pinned by the unit tests of `mod.rs` where those are decisive), as marked on
each definition.
-/

/-- Per-core CPU state: the interrupt-enable flag, the CR3 register holding
the handle (page-directory address) of the currently bound virtual-memory
context, and the CR0 control register whose bit 16 is the write-protect bit. -/
structure CpuState where
  intr : Bool
  cr3 : Nat
  cr0 : Nat
deriving DecidableEq

/-- Modelled from the spec: `cpu::cr0_get` reads the CR0 control register. -/
def cr0_get (s : CpuState) : Nat :=
  s.cr0

/-- Modelled from the spec: `cpu::cr0_set` ORs the given mask into CR0. -/
def cr0_set (mask : Nat) (s : CpuState) : CpuState :=
  { s with cr0 := s.cr0 ||| mask }

/-- Modelled from the spec: `cpu::cr0_clear` clears the given mask from CR0
(bitwise AND with the 32-bit complement of the mask). -/
def cr0_clear (mask : Nat) (s : CpuState) : CpuState :=
  { s with cr0 := s.cr0 &&& (4294967295 ^^^ mask) }

/-- Modelled from the spec: `cpu::cr3_get` reads the CR3 register, i.e. the
handle of the context the hardware currently consults. -/
def cr3_get (s : CpuState) : Nat :=
  s.cr3

/-- From `mod.rs` lines 134-137: tells whether the read-only pages protection
is enabled, by testing bit 16 of CR0. -/
def is_write_locked (s : CpuState) : Bool :=
  decide ((cr0_get s &&& (1 <<< 16)) ≠ 0)

/-- From `mod.rs` lines 147-153: sets whether the kernel can write to
read-only pages, by setting or clearing bit 16 of CR0. -/
def set_write_lock (lock : Bool) (s : CpuState) : CpuState :=
  if lock then cr0_set (1 <<< 16) s else cr0_clear (1 <<< 16) s

/-- From `mod.rs` lines 167-174: executes the closure `f` with the write lock
disabled, then restores the captured lock state. -/
def write_lock_wrap {T : Type} (f : CpuState → T × CpuState) (s : CpuState) :
    T × CpuState :=
  let lock := is_write_locked s
  let s1 := set_write_lock false s
  let p := f s1
  (p.1, set_write_lock lock p.2)

/-- Modelled from the spec: `idt::wrap_disable_interrupts` saves the interrupt
flag, disables interrupts for the whole operation, runs the closure, and
restores the saved interrupt state. -/
def wrap_disable_interrupts {T : Type} (f : CpuState → T × CpuState)
    (s : CpuState) : T × CpuState :=
  let saved := s.intr
  let p := f { s with intr := false }
  (p.1, { p.2 with intr := saved })

/-- Modelled from the spec: `VMem::is_bound` tells whether the context with
handle `h` is the one the hardware consults (CR3 equals the handle). -/
def VMem.is_bound (h : Nat) (s : CpuState) : Bool :=
  cr3_get s == h

/-- Modelled from the spec: `VMem::bind` makes the context with handle `h`
the one the hardware consults. -/
def VMem.bind (h : Nat) (s : CpuState) : CpuState :=
  { s with cr3 := h }

/-- Modelled from the spec: `x86::paging_enable` loads the given page
directory handle into CR3. -/
def paging_enable (dir : Nat) (s : CpuState) : CpuState :=
  { s with cr3 := dir }

/-- From `mod.rs` lines 197-215: executes `f` while bound to the context with
handle `h`, under disabled interrupts; if `h` is already bound, runs `f`
directly, otherwise records CR3, binds `h`, runs `f` and restores the
previous context. -/
def switch {T : Type} (h : Nat) (f : CpuState → T × CpuState) (s : CpuState) :
    T × CpuState :=
  wrap_disable_interrupts (fun s0 =>
    if VMem.is_bound h s0 then
      f s0
    else
      let cr3 := cr3_get s0
      let s1 := VMem.bind h s0
      let p := f s1
      (p.1, paging_enable cr3 p.2)) s

/-- From the tests of `mod.rs` (x86 platform configuration): the fixed page
size of 4096 bytes. -/
def PAGE_SIZE : Nat := 4096

/-- From the tests of `mod.rs` (`memory::PROCESS_END`): the end of the
userspace address range and start of kernel space, `0xc0000000`. -/
def PROCESS_END : Nat := 0xc0000000

/-- Modelled from the spec: the x86 page-table flag used by `protect_kernel`
to remap read-only kernel sections (`x86::FLAG_USER`). -/
def FLAG_USER : Nat := 4

/-- Modelled from the spec: the x86 page-table write flag, used here as the
flag of the boot-time kernel identity mapping. -/
def FLAG_WRITE : Nat := 2

/-- Modelled from the spec: the ELF section flag marking a writable section
(`elf::SHF_WRITE`). -/
def SHF_WRITE : Nat := 1

/-- Allocation failure while growing page-table structures, the single error
kind of the subsystem (`errno::AllocError`). -/
inductive AllocError where
  | mk
deriving DecidableEq

/-- Modelled from the spec: the state of one virtual-memory context handler.
The frame allocator is modelled as an oracle list of booleans (head decides
whether the next allocation succeeds; an empty oracle always succeeds), and
the page table as an association list from virtual page number to an optional
(physical page number, flags) pair, where an explicit `none` marks a page
unmapped even if the boot-time kernel mapping covered it. -/
structure VMemState where
  alloc : List Bool
  entries : List (Nat × Option (Nat × Nat))
deriving DecidableEq

/-- Modelled from the spec: one allocation request against the frame
allocator oracle; reports failure rather than blocking. -/
def allocStep (st : VMemState) : Bool × VMemState :=
  match st.alloc with
  | [] => (true, st)
  | b :: rest => (b, { st with alloc := rest })

/-- Removes every entry recorded for virtual page `k`. -/
def eraseKey : List (Nat × Option (Nat × Nat)) → Nat →
    List (Nat × Option (Nat × Nat))
  | [], _ => []
  | e :: es, k => if e.1 = k then eraseKey es k else e :: eraseKey es k

/-- Installs or overwrites the entry of virtual page `k`, removing any
previous entry for the same page. -/
def setEntry (es : List (Nat × Option (Nat × Nat))) (k : Nat)
    (v : Option (Nat × Nat)) : List (Nat × Option (Nat × Nat)) :=
  (k, v) :: eraseKey es k

/-- Looks up the first entry recorded for virtual page `k`. -/
def lookupEntry : List (Nat × Option (Nat × Nat)) → Nat →
    Option (Option (Nat × Nat))
  | [], _ => none
  | e :: es, k => if e.1 = k then some e.2 else lookupEntry es k

/-- Modelled from the tests of `mod.rs` (`vmem_basic0`, `vmem_basic1`): a
fresh context identity-maps the kernel space above `PROCESS_END` (virtual
page `0xc0000 + i` to physical page `i`) and leaves userspace unmapped. -/
def kernelEntry (vp : Nat) : Option (Nat × Nat) :=
  if 0xc0000 ≤ vp ∧ vp < 0x100000 then some (vp - 0xc0000, FLAG_WRITE)
  else none

/-- Effective page-table entry of virtual page `vp`: an explicitly recorded
entry shadows the boot-time kernel mapping. -/
def entryAt (st : VMemState) (vp : Nat) : Option (Nat × Nat) :=
  match lookupEntry st.entries vp with
  | some o => o
  | none => kernelEntry vp

/-- Modelled from the spec: `VMem::translate` is a pure lookup translating a
virtual address to the corresponding physical address, `none` if unmapped. -/
def VMem.translate (st : VMemState) (v : Nat) : Option Nat :=
  match entryAt st (v / PAGE_SIZE) with
  | some pe => some (pe.1 * PAGE_SIZE + v % PAGE_SIZE)
  | none => none

/-- From `mod.rs` lines 36-38: tells whether the given pointer is mapped. -/
def VMem.is_mapped (st : VMemState) (v : Nat) : Bool :=
  (VMem.translate st v).isSome

/-- Modelled from the spec: `VMem::map` installs or overwrites one page
mapping from `virtaddr` to `physaddr` with the given flags; it fails only on
allocation failure, leaving the mappings unchanged in that case. -/
def VMem.map (physaddr virtaddr flags : Nat) (st : VMemState) :
    Except AllocError Unit × VMemState :=
  match allocStep st with
  | (true, st1) =>
    let es := setEntry st1.entries (virtaddr / PAGE_SIZE)
      (some (physaddr / PAGE_SIZE, flags))
    (Except.ok (), { st1 with entries := es })
  | (false, st1) => (Except.error AllocError.mk, st1)

/-- Modelled from the spec: `VMem::unmap` removes the mapping of the page at
`virtaddr`; it fails only on allocation failure, leaving the mappings
unchanged in that case. -/
def VMem.unmap (virtaddr : Nat) (st : VMemState) :
    Except AllocError Unit × VMemState :=
  match allocStep st with
  | (true, st1) =>
    let es := setEntry st1.entries (virtaddr / PAGE_SIZE) none
    (Except.ok (), { st1 with entries := es })
  | (false, st1) => (Except.error AllocError.mk, st1)

/-- Modelled from the spec: the indexed loop of `VMem::map_range`, mapping
page `i` of the range on each iteration and stopping at the first failure. -/
def VMem.mapRangeLoop (physaddr virtaddr flags : Nat) :
    Nat → Nat → VMemState → Except AllocError Unit × VMemState
  | 0, _, st => (Except.ok (), st)
  | todo + 1, i, st =>
    match VMem.map (physaddr + i * PAGE_SIZE) (virtaddr + i * PAGE_SIZE)
        flags st with
    | (Except.ok _, st1) =>
      VMem.mapRangeLoop physaddr virtaddr flags todo (i + 1) st1
    | (Except.error e, st1) => (Except.error e, st1)

/-- Modelled from the spec: `VMem::map_range` repeats `map` across `pages`
contiguous pages; on mid-range failure the virtual memory is left altered
midway. -/
def VMem.map_range (physaddr virtaddr pages flags : Nat) (st : VMemState) :
    Except AllocError Unit × VMemState :=
  VMem.mapRangeLoop physaddr virtaddr flags pages 0 st

/-- Modelled from the spec: the indexed loop of `VMem::unmap_range`. -/
def VMem.unmapRangeLoop (virtaddr : Nat) :
    Nat → Nat → VMemState → Except AllocError Unit × VMemState
  | 0, _, st => (Except.ok (), st)
  | todo + 1, i, st =>
    match VMem.unmap (virtaddr + i * PAGE_SIZE) st with
    | (Except.ok _, st1) => VMem.unmapRangeLoop virtaddr todo (i + 1) st1
    | (Except.error e, st1) => (Except.error e, st1)

/-- Modelled from the spec: `VMem::unmap_range` repeats `unmap` across
`pages` contiguous pages with the same partial-failure policy as
`map_range`. -/
def VMem.unmap_range (virtaddr pages : Nat) (st : VMemState) :
    Except AllocError Unit × VMemState :=
  VMem.unmapRangeLoop virtaddr pages 0 st

/-- From `mod.rs` lines 123-126: creates a new virtual memory context handler
(its page-table content is pinned by the tests, see `kernelEntry`); the
argument seeds the allocator oracle of the model. -/
def new (alloc : List Bool) : VMemState :=
  ⟨alloc, []⟩

/-- Sequential `map` calls following the specification sentence for
`map_range`: each call advances both addresses by one page and the sequence
stops at the first failure. -/
def seqMap : Nat → Nat → Nat → Nat → VMemState →
    Except AllocError Unit × VMemState
  | _, _, 0, _, st => (Except.ok (), st)
  | physaddr, virtaddr, n + 1, flags, st =>
    match VMem.map physaddr virtaddr flags st with
    | (Except.ok _, st1) =>
      seqMap (physaddr + PAGE_SIZE) (virtaddr + PAGE_SIZE) n flags st1
    | (Except.error e, st1) => (Except.error e, st1)

/-- From `elf.rs` usage in `mod.rs`: the fields of an ELF32 section header
read by `protect_kernel`. -/
structure ELF32SectionHeader where
  sh_addr : Nat
  sh_size : Nat
  sh_flags : Nat
  sh_addralign : Nat
deriving DecidableEq

/-- Modelled from the spec: `util::math::ceil_div`, ceiling division. -/
def ceil_div (a b : Nat) : Nat :=
  a / b + (if a % b = 0 then 0 else 1)

/-- Modelled from the spec: `memory::kern_to_phys` converts a kernel virtual
address to its physical address (identity on already-physical addresses). -/
def kern_to_phys (a : Nat) : Nat :=
  if PROCESS_END ≤ a then a - PROCESS_END else a

/-- Modelled from the spec: `memory::kern_to_virt` converts a physical
address to the corresponding kernel virtual address (identity on addresses
already in kernel space). -/
def kern_to_virt (a : Nat) : Nat :=
  if a < PROCESS_END then a + PROCESS_END else a

/-- From `mod.rs` lines 88-120: iterates over the kernel ELF sections
(`elf::foreach_sections` is modelled as recursion over the section list,
stopping when the callback returns false); a section that is writable or not
page-aligned is skipped, any other section is remapped with `FLAG_USER`, and
the iteration stops at the first allocation failure, which becomes the
result. -/
def VMem.protect_kernel :
    List ELF32SectionHeader → VMemState → Except AllocError Unit × VMemState
  | [], st => (Except.ok (), st)
  | sec :: rest, st =>
    if sec.sh_flags &&& SHF_WRITE ≠ 0 ∨ sec.sh_addralign ≠ PAGE_SIZE then
      VMem.protect_kernel rest st
    else
      match VMem.map_range (kern_to_phys sec.sh_addr) (kern_to_virt sec.sh_addr)
          (ceil_div sec.sh_size PAGE_SIZE) FLAG_USER st with
      | (Except.ok _, st1) => VMem.protect_kernel rest st1
      | (Except.error e, st1) => (Except.error e, st1)

/-- Scenario section of the spec: a writable kernel section of one page. -/
def secWritable : ELF32SectionHeader :=
  ⟨0x100000, 0x1000, SHF_WRITE, PAGE_SIZE⟩

/-- Scenario section of the spec: a page-aligned read-only kernel section of
one page. -/
def secReadOnly : ELF32SectionHeader :=
  ⟨0x200000, 0x1000, 0, PAGE_SIZE⟩

/-- Within one context a virtual page maps to at most one physical page: the
page-table association list never records two entries for one virtual
page. -/
def wf (st : VMemState) : Prop :=
  (st.entries.map Prod.fst).Nodup


/-- Bit 16 survives an OR with the bit-16 mask: the AND with the mask is
nonzero. -/
theorem or_mask_and_mask_ne_zero (x : Nat) : (x ||| 65536) &&& 65536 ≠ 0 := by
  intro h
  have h2 := congrArg (fun n => n.testBit 16) h
  have hc : Nat.testBit 65536 16 = true := by decide
  simp [Nat.testBit_and, Nat.testBit_or, hc] at h2

/-- Bit 16 is cleared by an AND with the 32-bit complement of the bit-16
mask: the AND with the mask is zero. -/
theorem clear_mask_and_mask_eq_zero (x : Nat) :
    (x &&& 4294901759) &&& 65536 = 0 := by
  apply Nat.eq_of_testBit_eq
  intro i
  rw [Nat.testBit_and, Nat.testBit_and]
  by_cases h : i = 16
  · subst h
    have hb : Nat.testBit 4294901759 16 = false := by decide
    simp [hb]
  · have h65536 : Nat.testBit 65536 i = false := by
      have e : (65536 : Nat) = 2 ^ 16 := by norm_num
      rw [e, Nat.testBit_two_pow]
      simpa using fun hh => h hh.symm
    simp [h65536]

/-- Writing the lock bit and reading it back yields the written value. -/
theorem is_write_locked_set_write_lock (s : CpuState) (b : Bool) :
    is_write_locked (set_write_lock b s) = b := by
  have hs : (1 <<< 16 : Nat) = 65536 := by decide
  cases b
  · simp only [set_write_lock, cr0_clear, is_write_locked, cr0_get, hs,
      Bool.if_false_left]
    simp [clear_mask_and_mask_eq_zero]
  · simp only [set_write_lock, cr0_set, is_write_locked, cr0_get, hs, if_true]
    simp [or_mask_and_mask_ne_zero]

/-- C10: for every CPU state and boolean `b`, calling `set_write_lock b` and
then `is_write_locked` returns `b`: the two operations round-trip through the
single control-register bit (CR0 bit 16) they both read and write. -/
theorem set_write_lock_is_write_locked_roundtrip :
    ∀ (s : CpuState) (b : Bool), is_write_locked (set_write_lock b s) = b :=
  fun s b => is_write_locked_set_write_lock s b

/-- C2: `write_lock_wrap f` captures the current write-lock state, disables
the lock, runs `f` on the unlocked state, and restores the captured state on
exit, regardless of what `f` itself did to the lock; after it returns,
`is_write_locked` equals its value before the call. -/
theorem write_lock_wrap_restores_lock :
    ∀ {T : Type} (f : CpuState → T × CpuState) (s : CpuState),
      write_lock_wrap f s
        = ((f (set_write_lock false s)).1,
           set_write_lock (is_write_locked s) (f (set_write_lock false s)).2)
      ∧ is_write_locked (write_lock_wrap f s).2 = is_write_locked s := by
  intro T f s
  refine ⟨rfl, ?_⟩
  show is_write_locked
      (set_write_lock (is_write_locked s) (f (set_write_lock false s)).2)
    = is_write_locked s
  exact is_write_locked_set_write_lock _ _

/-- C1: `switch h f` restores the previously bound context and the interrupt
state in both paths (given the caller contract that `f` does not rebind the
context); when `h` is already bound it runs `f` directly with no context
switch, and otherwise it records CR3, binds `h`, runs `f` with interrupts
disabled, rebinds the previous context, restores the interrupt state and
returns the result of `f`. -/
theorem switch_restores_previous_context {T : Type} (h : Nat)
    (f : CpuState → T × CpuState) (s : CpuState)
    (hf : ∀ t, ((f t).2).cr3 = t.cr3) :
    ((switch h f s).2.cr3 = s.cr3 ∧ (switch h f s).2.intr = s.intr)
    ∧ (s.cr3 = h →
        switch h f s
          = ((f { s with intr := false }).1,
             { (f { s with intr := false }).2 with intr := s.intr }))
    ∧ (s.cr3 ≠ h →
        switch h f s
          = ((f { s with intr := false, cr3 := h }).1,
             { (f { s with intr := false, cr3 := h }).2 with
                intr := s.intr, cr3 := s.cr3 })) := by
  by_cases hb : s.cr3 = h
  · have hfast : switch h f s
        = ((f { s with intr := false }).1,
           { (f { s with intr := false }).2 with intr := s.intr }) := by
      simp [switch, wrap_disable_interrupts, VMem.is_bound, cr3_get, hb]
    refine ⟨⟨?_, ?_⟩, fun _ => hfast, fun hc => absurd hb hc⟩
    · rw [hfast]
      exact (hf { s with intr := false }).trans rfl
    · rw [hfast]
  · have hslow : switch h f s
        = ((f { s with intr := false, cr3 := h }).1,
           { (f { s with intr := false, cr3 := h }).2 with
              intr := s.intr, cr3 := s.cr3 }) := by
      simp [switch, wrap_disable_interrupts, VMem.is_bound, cr3_get, VMem.bind,
        paging_enable, hb]
    refine ⟨⟨?_, ?_⟩, fun hc => absurd hc hb, fun _ => hslow⟩
    · rw [hslow]
    · rw [hslow]

/-- Concrete instance of the context-switch theorem: handle 5 is not bound in
the state with CR3 = 3, and `switch` with the closure returning 7 restores
CR3 = 3 and the interrupt flag. -/
theorem switch_restores_previous_context_witness :
    ((switch 5 (fun t => ((7 : Nat), t)) ⟨true, 3, 0⟩).2.cr3 = 3
      ∧ (switch 5 (fun t => ((7 : Nat), t)) ⟨true, 3, 0⟩).2.intr = true)
    ∧ ((3 : Nat) = 5 →
        switch 5 (fun t => ((7 : Nat), t)) ⟨true, 3, 0⟩
          = ((7 : Nat), ⟨true, 3, 0⟩))
    ∧ ((3 : Nat) ≠ 5 →
        switch 5 (fun t => ((7 : Nat), t)) ⟨true, 3, 0⟩
          = ((7 : Nat), ⟨true, 3, 0⟩)) :=
  switch_restores_previous_context 5 (fun t => ((7 : Nat), t)) ⟨true, 3, 0⟩
    (fun _ => rfl)

/-- Looking up the page written by `setEntry` yields the new entry. -/
theorem lookupEntry_setEntry_self (es : List (Nat × Option (Nat × Nat)))
    (k : Nat) (v : Option (Nat × Nat)) :
    lookupEntry (setEntry es k v) k = some v := by
  simp [setEntry, lookupEntry]

/-- Erasing one key leaves the lookup of every other key unchanged. -/
theorem lookupEntry_eraseKey_ne (es : List (Nat × Option (Nat × Nat)))
    (k k' : Nat) (h : k' ≠ k) :
    lookupEntry (eraseKey es k) k' = lookupEntry es k' := by
  induction es with
  | nil => rfl
  | cons e es ih =>
    by_cases he : e.1 = k
    · have hkk : ¬ (k = k') := fun hh => h hh.symm
      simp [eraseKey, he, lookupEntry, hkk, ih]
    · by_cases he' : e.1 = k'
      · simp [eraseKey, he, lookupEntry, he', h]
      · simp [eraseKey, he, lookupEntry, he', ih]

/-- Writing one page with `setEntry` leaves the lookup of every other page
unchanged. -/
theorem lookupEntry_setEntry_ne (es : List (Nat × Option (Nat × Nat)))
    (k : Nat) (v : Option (Nat × Nat)) (k' : Nat) (h : k' ≠ k) :
    lookupEntry (setEntry es k v) k' = lookupEntry es k' := by
  have hne : ¬ (k = k') := fun hh => h hh.symm
  simp only [setEntry, lookupEntry, if_neg hne]
  exact lookupEntry_eraseKey_ne es k k' h

/-- A successful `map` records the new page-table entry over the previous
entries of the context. -/
theorem map_ok_entries (p v fl : Nat) (st st' : VMemState)
    (h : VMem.map p v fl st = (Except.ok (), st')) :
    st'.entries = setEntry st.entries (v / PAGE_SIZE)
      (some (p / PAGE_SIZE, fl)) := by
  obtain ⟨al, es⟩ := st
  cases al with
  | nil =>
    simp [VMem.map, allocStep] at h
    rw [← h]
  | cons b rest =>
    cases b with
    | true =>
      simp [VMem.map, allocStep] at h
      rw [← h]
    | false => simp [VMem.map, allocStep] at h

/-- A failed `map` leaves the page-table entries unchanged. -/
theorem map_error_entries (p v fl : Nat) (st st' : VMemState) (e : AllocError)
    (h : VMem.map p v fl st = (Except.error e, st')) :
    st'.entries = st.entries := by
  obtain ⟨al, es⟩ := st
  cases al with
  | nil => simp [VMem.map, allocStep] at h
  | cons b rest =>
    cases b with
    | true => simp [VMem.map, allocStep] at h
    | false =>
      simp [VMem.map, allocStep] at h
      rw [← h]

/-- A successful `unmap` records an unmapped entry over the previous entries
of the context. -/
theorem unmap_ok_entries (v : Nat) (st st' : VMemState)
    (h : VMem.unmap v st = (Except.ok (), st')) :
    st'.entries = setEntry st.entries (v / PAGE_SIZE) none := by
  obtain ⟨al, es⟩ := st
  cases al with
  | nil =>
    simp [VMem.unmap, allocStep] at h
    rw [← h]
  | cons b rest =>
    cases b with
    | true =>
      simp [VMem.unmap, allocStep] at h
      rw [← h]
    | false => simp [VMem.unmap, allocStep] at h

/-- A failed `unmap` leaves the page-table entries unchanged. -/
theorem unmap_error_entries (v : Nat) (st st' : VMemState) (e : AllocError)
    (h : VMem.unmap v st = (Except.error e, st')) :
    st'.entries = st.entries := by
  obtain ⟨al, es⟩ := st
  cases al with
  | nil => simp [VMem.unmap, allocStep] at h
  | cons b rest =>
    cases b with
    | true => simp [VMem.unmap, allocStep] at h
    | false =>
      simp [VMem.unmap, allocStep] at h
      rw [← h]

/-- C4: for every context, if `map phys virt flags` returns `Ok` then
`translate virt` returns `some phys` (for page-aligned addresses), and
`translate` is unchanged on every virtual address outside the mapped page. -/
theorem map_ok_translate (st : VMemState) (p v fl : Nat) (st' : VMemState)
    (hp : p % PAGE_SIZE = 0) (hv : v % PAGE_SIZE = 0)
    (h : VMem.map p v fl st = (Except.ok (), st')) :
    VMem.translate st' v = some p
    ∧ ∀ w, w / PAGE_SIZE ≠ v / PAGE_SIZE →
        VMem.translate st' w = VMem.translate st w := by
  have he := map_ok_entries p v fl st st' h
  constructor
  · unfold VMem.translate entryAt
    rw [he, lookupEntry_setEntry_self]
    show some (p / PAGE_SIZE * PAGE_SIZE + v % PAGE_SIZE) = some p
    rw [hv, Nat.add_zero, Nat.div_mul_cancel (Nat.dvd_of_mod_eq_zero hp)]
  · intro w hw
    unfold VMem.translate entryAt
    rw [he, lookupEntry_setEntry_ne _ _ _ _ hw]

/-- Concrete instance of the map-then-translate theorem, following the
scenario of the spec: mapping physical `0x100000` at virtual `0x100000` in a
fresh context makes `translate 0x100000` return it and leaves `0x101000`
untouched. -/
theorem map_ok_translate_witness :
    (0x100000 % PAGE_SIZE = 0)
    ∧ VMem.translate ⟨[], [(0x100, some (0x100, 0))]⟩ 0x100000 = some 0x100000
    ∧ VMem.translate ⟨[], [(0x100, some (0x100, 0))]⟩ 0x101000
        = VMem.translate (new []) 0x101000 :=
  ⟨by decide,
   (map_ok_translate (new []) 0x100000 0x100000 0
      ⟨[], [(0x100, some (0x100, 0))]⟩ (by decide) (by decide) rfl).1,
   (map_ok_translate (new []) 0x100000 0x100000 0
      ⟨[], [(0x100, some (0x100, 0))]⟩ (by decide) (by decide) rfl).2
     0x101000 (by decide)⟩

/-- C5 (amended): on a freshly created context, `translate` returns `none`
for every virtual address in userspace, i.e. below `PROCESS_END`; the
repository's own test `vmem_basic1` pins the complementary behaviour that
kernel-space addresses of a fresh context are identity-mapped. -/
theorem translate_new_userspace_none (a : List Bool) (v : Nat)
    (h : v < PROCESS_END) : VMem.translate (new a) v = none := by
  have h4 : 0 < PAGE_SIZE := by decide
  have hvp : v / PAGE_SIZE < 0xc0000 := by
    rw [Nat.div_lt_iff_lt_mul h4]
    have hpe : (0xc0000 : Nat) * PAGE_SIZE = PROCESS_END := by decide
    rw [hpe]
    exact h
  have hcond : ¬ (0xc0000 ≤ v / PAGE_SIZE ∧ v / PAGE_SIZE < 0x100000) := by
    intro hc
    omega
  simp [VMem.translate, entryAt, new, lookupEntry, kernelEntry, hcond]

/-- Concrete instance of the fresh-context theorem at userspace address
`0x1000`. -/
theorem translate_new_userspace_none_witness :
    ((0x1000 : Nat) < PROCESS_END) ∧ VMem.translate (new []) 0x1000 = none :=
  ⟨by decide, translate_new_userspace_none [] 0x1000 (by decide)⟩

/-- C5 counterexample: the claim as stated fails on the code, because a fresh
context is not unmapped everywhere: at the kernel-space address `0xc0000000`
a fresh context translates to physical address `0`, exactly as the
repository's test `vmem_basic1` asserts. -/
theorem translate_new_kernel_counterexample :
    VMem.translate (new []) 0xc0000000 ≠ none
    ∧ VMem.translate (new []) 0xc0000000 = some 0 := by
  constructor
  · decide
  · decide

/-- C6: for every context and virtual address `virt` that is currently
mapped, after `unmap virt` returns `Ok`, `translate virt` returns `none`. -/
theorem unmap_ok_translate_none (st : VMemState) (v : Nat) (st' : VMemState)
    (_hm : VMem.is_mapped st v = true)
    (h : VMem.unmap v st = (Except.ok (), st')) :
    VMem.translate st' v = none := by
  have he := unmap_ok_entries v st st' h
  unfold VMem.translate entryAt
  rw [he, lookupEntry_setEntry_self]

/-- Concrete instance of the unmap-then-translate theorem on a context with
one mapped page. -/
theorem unmap_ok_translate_none_witness :
    VMem.is_mapped ⟨[], [(0x100, some (0x100, 0))]⟩ 0x100000 = true
    ∧ VMem.translate ⟨[], [(0x100, none)]⟩ 0x100000 = none :=
  ⟨by decide,
   unmap_ok_translate_none ⟨[], [(0x100, some (0x100, 0))]⟩ 0x100000
     ⟨[], [(0x100, none)]⟩ (by decide) rfl⟩

theorem mem_keys_eraseKey (es : List (Nat × Option (Nat × Nat))) (k a : Nat)
    (h : a ∈ (eraseKey es k).map Prod.fst) : a ∈ es.map Prod.fst := by
  induction es with
  | nil => simp [eraseKey] at h
  | cons e es ih =>
    by_cases he : e.1 = k
    · simp only [eraseKey, if_pos he] at h
      simp [ih h]
    · simp only [eraseKey, if_neg he, List.map_cons, List.mem_cons] at h
      rcases h with h | h
      · simp [h]
      · simp [ih h]

theorem not_mem_keys_eraseKey (es : List (Nat × Option (Nat × Nat)))
    (k : Nat) : k ∉ (eraseKey es k).map Prod.fst := by
  induction es with
  | nil => simp [eraseKey]
  | cons e es ih =>
    by_cases he : e.1 = k
    · simpa [eraseKey, he] using ih
    · simp only [eraseKey, if_neg he, List.map_cons, List.mem_cons]
      intro h
      rcases h with h | h
      · exact he h.symm
      · exact ih h

theorem nodup_keys_eraseKey (es : List (Nat × Option (Nat × Nat))) (k : Nat)
    (h : (es.map Prod.fst).Nodup) : ((eraseKey es k).map Prod.fst).Nodup := by
  induction es with
  | nil => simp [eraseKey]
  | cons e es ih =>
    rw [List.map_cons, List.nodup_cons] at h
    by_cases he : e.1 = k
    · simpa [eraseKey, he] using ih h.2
    · simp only [eraseKey, if_neg he, List.map_cons, List.nodup_cons]
      exact ⟨fun hm => h.1 (mem_keys_eraseKey es k e.1 hm), ih h.2⟩

theorem nodup_keys_setEntry (es : List (Nat × Option (Nat × Nat))) (k : Nat)
    (v : Option (Nat × Nat)) (h : (es.map Prod.fst).Nodup) :
    ((setEntry es k v).map Prod.fst).Nodup := by
  rw [setEntry, List.map_cons, List.nodup_cons]
  exact ⟨not_mem_keys_eraseKey es k, nodup_keys_eraseKey es k h⟩

theorem map_wf (p v fl : Nat) (st : VMemState) (r : Except AllocError Unit)
    (st' : VMemState) (h : VMem.map p v fl st = (r, st')) (hw : wf st) :
    wf st' := by
  cases r with
  | ok u =>
    cases u
    have he := map_ok_entries p v fl st st' h
    unfold wf
    rw [he]
    exact nodup_keys_setEntry _ _ _ hw
  | error e =>
    have he := map_error_entries p v fl st st' e h
    unfold wf
    rw [he]
    exact hw

theorem unmap_wf (v : Nat) (st : VMemState) (r : Except AllocError Unit)
    (st' : VMemState) (h : VMem.unmap v st = (r, st')) (hw : wf st) :
    wf st' := by
  cases r with
  | ok u =>
    cases u
    have he := unmap_ok_entries v st st' h
    unfold wf
    rw [he]
    exact nodup_keys_setEntry _ _ _ hw
  | error e =>
    have he := unmap_error_entries v st st' e h
    unfold wf
    rw [he]
    exact hw

theorem mapRangeLoop_wf (p v fl : Nat) :
    ∀ (t i : Nat) (st : VMemState) (r : Except AllocError Unit)
      (st' : VMemState),
      VMem.mapRangeLoop p v fl t i st = (r, st') → wf st → wf st' := by
  intro t
  induction t with
  | zero =>
    intro i st r st' h hw
    simp [VMem.mapRangeLoop] at h
    rw [← h.2]
    exact hw
  | succ t ih =>
    intro i st r st' h hw
    rcases hm : VMem.map (p + i * PAGE_SIZE) (v + i * PAGE_SIZE) fl st
      with ⟨rm, st1⟩
    have hw1 := map_wf _ _ _ _ _ _ hm hw
    cases rm with
    | ok u =>
      simp only [VMem.mapRangeLoop, hm] at h
      exact ih (i + 1) st1 r st' h hw1
    | error e =>
      simp only [VMem.mapRangeLoop, hm] at h
      injection h with h1 h2
      rw [← h2]
      exact hw1

theorem unmapRangeLoop_wf (v : Nat) :
    ∀ (t i : Nat) (st : VMemState) (r : Except AllocError Unit)
      (st' : VMemState),
      VMem.unmapRangeLoop v t i st = (r, st') → wf st → wf st' := by
  intro t
  induction t with
  | zero =>
    intro i st r st' h hw
    simp [VMem.unmapRangeLoop] at h
    rw [← h.2]
    exact hw
  | succ t ih =>
    intro i st r st' h hw
    rcases hm : VMem.unmap (v + i * PAGE_SIZE) st with ⟨rm, st1⟩
    have hw1 := unmap_wf _ _ _ _ hm hw
    cases rm with
    | ok u =>
      simp only [VMem.unmapRangeLoop, hm] at h
      exact ih (i + 1) st1 r st' h hw1
    | error e =>
      simp only [VMem.unmapRangeLoop, hm] at h
      injection h with h1 h2
      rw [← h2]
      exact hw1

theorem countP_eraseKey_eq_zero (es : List (Nat × Option (Nat × Nat)))
    (k : Nat) :
    (eraseKey es k).countP (fun e => e.1 == k) = 0 := by
  induction es with
  | nil => simp [eraseKey]
  | cons e es ih =>
    by_cases he : e.1 = k
    · simpa [eraseKey, he] using ih
    · simp [eraseKey, he, List.countP_cons, ih]

/-- C7: for every context, a successful `map` on an already-mapped virtual
page overwrites the existing translation and leaves exactly one entry for
that page rather than adding a second one, and the at-most-one-physical-page
invariant `wf` is preserved by every `map`, `map_range`, `unmap` and
`unmap_range` operation, whether it succeeds or fails. -/
theorem map_overwrite_unique_mapping :
    (∀ (st : VMemState) (p2 v fl2 : Nat) (st' : VMemState),
       VMem.is_mapped st v = true →
       VMem.map p2 v fl2 st = (Except.ok (), st') →
       entryAt st' (v / PAGE_SIZE) = some (p2 / PAGE_SIZE, fl2)
       ∧ st'.entries.countP (fun e => e.1 == v / PAGE_SIZE) = 1)
    ∧ (∀ (st : VMemState) (p v fl : Nat) (r : Except AllocError Unit)
         (st' : VMemState), VMem.map p v fl st = (r, st') → wf st → wf st')
    ∧ (∀ (st : VMemState) (p v n fl : Nat) (r : Except AllocError Unit)
         (st' : VMemState), VMem.map_range p v n fl st = (r, st') →
         wf st → wf st')
    ∧ (∀ (st : VMemState) (v : Nat) (r : Except AllocError Unit)
         (st' : VMemState), VMem.unmap v st = (r, st') → wf st → wf st')
    ∧ (∀ (st : VMemState) (v n : Nat) (r : Except AllocError Unit)
         (st' : VMemState), VMem.unmap_range v n st = (r, st') →
         wf st → wf st') := by
  refine ⟨?_, ?_, ?_, ?_, ?_⟩
  · intro st p2 v fl2 st' _hm h
    have he := map_ok_entries p2 v fl2 st st' h
    constructor
    · unfold entryAt
      rw [he, lookupEntry_setEntry_self]
    · rw [he]
      unfold setEntry
      rw [List.countP_cons]
      simp [countP_eraseKey_eq_zero]
  · intro st p v fl r st' h hw
    exact map_wf p v fl st r st' h hw
  · intro st p v n fl r st' h hw
    exact mapRangeLoop_wf p v fl n 0 st r st' h hw
  · intro st v r st' h hw
    exact unmap_wf v st r st' h hw
  · intro st v n r st' h hw
    exact unmapRangeLoop_wf v n 0 st r st' h hw

/-- Concrete instance of the overwrite theorem, following the scenario of
the spec: remapping virtual page `0x100` from physical page `0x100` to
`0x200` keeps a single entry and the invariant. -/
theorem map_overwrite_unique_mapping_witness :
    VMem.is_mapped ⟨[], [(0x100, some (0x100, 0))]⟩ 0x100000 = true
    ∧ entryAt ⟨[], [(0x100, some (0x200, 0))]⟩ (0x100000 / PAGE_SIZE)
        = some (0x200000 / PAGE_SIZE, 0)
    ∧ List.countP (fun e => e.1 == 0x100000 / PAGE_SIZE)
        [((0x100 : Nat), some ((0x200 : Nat), (0 : Nat)))] = 1
    ∧ wf ⟨[], [(0x100, some (0x200, 0))]⟩ :=
  ⟨by decide,
   (map_overwrite_unique_mapping.1 ⟨[], [(0x100, some (0x100, 0))]⟩
      0x200000 0x100000 0 ⟨[], [(0x100, some (0x200, 0))]⟩
      (by decide) rfl).1,
   (map_overwrite_unique_mapping.1 ⟨[], [(0x100, some (0x100, 0))]⟩
      0x200000 0x100000 0 ⟨[], [(0x100, some (0x200, 0))]⟩
      (by decide) rfl).2,
   map_overwrite_unique_mapping.2.1 ⟨[], [(0x100, some (0x100, 0))]⟩
      0x200000 0x100000 0 (Except.ok ()) ⟨[], [(0x100, some (0x200, 0))]⟩
      rfl (by unfold wf; decide)⟩

/-- The indexed loop of `map_range` computes the sequential chain of `map`
calls, for every starting index. -/
theorem mapRangeLoop_eq_seqMap (p v fl : Nat) :
    ∀ (t i : Nat) (st : VMemState),
      VMem.mapRangeLoop p v fl t i st
        = seqMap (p + i * PAGE_SIZE) (v + i * PAGE_SIZE) t fl st := by
  intro t
  induction t with
  | zero => intro i st; rfl
  | succ t ih =>
    intro i st
    rcases hm : VMem.map (p + i * PAGE_SIZE) (v + i * PAGE_SIZE) fl st
      with ⟨rm, st1⟩
    cases rm with
    | ok u =>
      have h1 : VMem.mapRangeLoop p v fl (t + 1) i st
          = VMem.mapRangeLoop p v fl t (i + 1) st1 := by
        simp [VMem.mapRangeLoop, hm]
      have h2 : seqMap (p + i * PAGE_SIZE) (v + i * PAGE_SIZE) (t + 1) fl st
          = seqMap (p + i * PAGE_SIZE + PAGE_SIZE)
              (v + i * PAGE_SIZE + PAGE_SIZE) t fl st1 := by
        simp [seqMap, hm]
      rw [h1, h2, ih (i + 1) st1]
      have e1 : p + (i + 1) * PAGE_SIZE = p + i * PAGE_SIZE + PAGE_SIZE := by
        ring
      have e2 : v + (i + 1) * PAGE_SIZE = v + i * PAGE_SIZE + PAGE_SIZE := by
        ring
      rw [e1, e2]
    | error e =>
      simp [VMem.mapRangeLoop, seqMap, hm]

/-- C8: for every physical base, virtual base, page count, flags and
context, `map_range` yields the same result value and the same resulting
context state as the corresponding sequence of `map` calls on contiguous
page-stepped addresses with the same flags (`seqMap`, written from the
specification's words). -/
theorem map_range_eq_sequential_maps :
    ∀ (p v n fl : Nat) (st : VMemState),
      VMem.map_range p v n fl st = seqMap p v n fl st := by
  intro p v n fl st
  unfold VMem.map_range
  rw [mapRangeLoop_eq_seqMap p v fl n 0 st]
  simp

theorem mapRangeLoop_error_split (p v fl : Nat) :
    ∀ (t i : Nat) (st : VMemState) (e : AllocError) (st' : VMemState),
      VMem.mapRangeLoop p v fl t i st = (Except.error e, st') →
      ∃ k stk, k < t
        ∧ VMem.mapRangeLoop p v fl k i st = (Except.ok (), stk)
        ∧ VMem.map (p + (i + k) * PAGE_SIZE) (v + (i + k) * PAGE_SIZE) fl stk
            = (Except.error e, st')
        ∧ st'.entries = stk.entries := by
  intro t
  induction t with
  | zero =>
    intro i st e st' h
    simp [VMem.mapRangeLoop] at h
  | succ t ih =>
    intro i st e st' h
    rcases hm : VMem.map (p + i * PAGE_SIZE) (v + i * PAGE_SIZE) fl st
      with ⟨rm, st1⟩
    cases rm with
    | ok u =>
      simp only [VMem.mapRangeLoop, hm] at h
      obtain ⟨k, stk, hk, hloop, hmap, hent⟩ := ih (i + 1) st1 e st' h
      refine ⟨k + 1, stk, by omega, ?_, ?_, hent⟩
      · simp only [VMem.mapRangeLoop, hm]
        exact hloop
      · have haddr : i + (k + 1) = i + 1 + k := by ring
        rw [haddr]
        exact hmap
    | error e1 =>
      simp only [VMem.mapRangeLoop, hm] at h
      injection h with h1 h2
      injection h1 with h1
      refine ⟨0, st, by omega, rfl, ?_, ?_⟩
      · rw [Nat.add_zero]
        rw [← h1, ← h2]
        exact hm
      · rw [← h2]
        exact map_error_entries _ _ _ _ _ _ hm

theorem unmapRangeLoop_error_split (v : Nat) :
    ∀ (t i : Nat) (st : VMemState) (e : AllocError) (st' : VMemState),
      VMem.unmapRangeLoop v t i st = (Except.error e, st') →
      ∃ k stk, k < t
        ∧ VMem.unmapRangeLoop v k i st = (Except.ok (), stk)
        ∧ VMem.unmap (v + (i + k) * PAGE_SIZE) stk = (Except.error e, st')
        ∧ st'.entries = stk.entries := by
  intro t
  induction t with
  | zero =>
    intro i st e st' h
    simp [VMem.unmapRangeLoop] at h
  | succ t ih =>
    intro i st e st' h
    rcases hm : VMem.unmap (v + i * PAGE_SIZE) st with ⟨rm, st1⟩
    cases rm with
    | ok u =>
      simp only [VMem.unmapRangeLoop, hm] at h
      obtain ⟨k, stk, hk, hloop, hunmap, hent⟩ := ih (i + 1) st1 e st' h
      refine ⟨k + 1, stk, by omega, ?_, ?_, hent⟩
      · simp only [VMem.unmapRangeLoop, hm]
        exact hloop
      · have haddr : i + (k + 1) = i + 1 + k := by ring
        rw [haddr]
        exact hunmap
    | error e1 =>
      simp only [VMem.unmapRangeLoop, hm] at h
      injection h with h1 h2
      injection h1 with h1
      refine ⟨0, st, by omega, rfl, ?_, ?_⟩
      · rw [Nat.add_zero]
        rw [← h1, ← h2]
        exact hm
      · rw [← h2]
        exact unmap_error_entries _ _ _ _ hm

theorem protect_kernel_error_split :
    ∀ (secs : List ELF32SectionHeader) (st : VMemState) (e : AllocError)
      (st' : VMemState),
      VMem.protect_kernel secs st = (Except.error e, st') →
      ∃ pre sec post stk, secs = pre ++ sec :: post
        ∧ VMem.protect_kernel pre st = (Except.ok (), stk)
        ∧ sec.sh_flags &&& SHF_WRITE = 0 ∧ sec.sh_addralign = PAGE_SIZE
        ∧ VMem.map_range (kern_to_phys sec.sh_addr) (kern_to_virt sec.sh_addr)
            (ceil_div sec.sh_size PAGE_SIZE) FLAG_USER stk
            = (Except.error e, st') := by
  intro secs
  induction secs with
  | nil =>
    intro st e st' h
    simp [VMem.protect_kernel] at h
  | cons sec rest ih =>
    intro st e st' h
    by_cases hc : sec.sh_flags &&& SHF_WRITE ≠ 0 ∨ sec.sh_addralign ≠ PAGE_SIZE
    · rw [VMem.protect_kernel, if_pos hc] at h
      obtain ⟨pre, s1, post, stk, hsecs, hpre, hf, ha, hmr⟩ := ih st e st' h
      refine ⟨sec :: pre, s1, post, stk, by rw [hsecs, List.cons_append], ?_,
        hf, ha, hmr⟩
      rw [VMem.protect_kernel, if_pos hc]
      exact hpre
    · rcases hmr : VMem.map_range (kern_to_phys sec.sh_addr)
        (kern_to_virt sec.sh_addr) (ceil_div sec.sh_size PAGE_SIZE)
        FLAG_USER st with ⟨rmr, st1⟩
      push_neg at hc
      cases rmr with
      | ok u =>
        rw [VMem.protect_kernel, if_neg] at h
        · rw [hmr] at h
          obtain ⟨pre, s1, post, stk, hsecs, hpre, hf, ha, hmr1⟩ :=
            ih st1 e st' h
          refine ⟨sec :: pre, s1, post, stk, by rw [hsecs, List.cons_append],
            ?_, hf, ha, hmr1⟩
          rw [VMem.protect_kernel, if_neg]
          · rw [hmr]
            exact hpre
          · simp [hc.1, hc.2]
        · simp [hc.1, hc.2]
      | error e1 =>
        rw [VMem.protect_kernel, if_neg] at h
        · rw [hmr] at h
          injection h with h1 h2
          injection h1 with h1
          refine ⟨[], sec, rest, st, rfl, rfl, hc.1, hc.2, ?_⟩
          rw [← h1, ← h2]
          exact hmr
        · simp [hc.1, hc.2]

/-- C9: on allocation failure, `map_range` and `unmap_range` return the
error leaving the partially applied range in place — a prefix of `k` pages
was applied, the failing call itself left the entries untouched, and nothing
is rolled back — and `protect_kernel` stops at the first allocation failure,
returns that error, and leaves the already-protected prefix of sections
intact. -/
theorem allocation_failure_no_rollback :
    (∀ (p v n fl : Nat) (st : VMemState) (e : AllocError) (st' : VMemState),
       VMem.map_range p v n fl st = (Except.error e, st') →
       ∃ k stk, k < n
         ∧ VMem.map_range p v k fl st = (Except.ok (), stk)
         ∧ VMem.map (p + k * PAGE_SIZE) (v + k * PAGE_SIZE) fl stk
             = (Except.error e, st')
         ∧ st'.entries = stk.entries)
    ∧ (∀ (v n : Nat) (st : VMemState) (e : AllocError) (st' : VMemState),
       VMem.unmap_range v n st = (Except.error e, st') →
       ∃ k stk, k < n
         ∧ VMem.unmap_range v k st = (Except.ok (), stk)
         ∧ VMem.unmap (v + k * PAGE_SIZE) stk = (Except.error e, st')
         ∧ st'.entries = stk.entries)
    ∧ (∀ (secs : List ELF32SectionHeader) (st : VMemState) (e : AllocError)
         (st' : VMemState),
       VMem.protect_kernel secs st = (Except.error e, st') →
       ∃ pre sec post stk, secs = pre ++ sec :: post
         ∧ VMem.protect_kernel pre st = (Except.ok (), stk)
         ∧ sec.sh_flags &&& SHF_WRITE = 0 ∧ sec.sh_addralign = PAGE_SIZE
         ∧ VMem.map_range (kern_to_phys sec.sh_addr)
             (kern_to_virt sec.sh_addr) (ceil_div sec.sh_size PAGE_SIZE)
             FLAG_USER stk = (Except.error e, st')) := by
  refine ⟨?_, ?_, protect_kernel_error_split⟩
  · intro p v n fl st e st' h
    obtain ⟨k, stk, hk, hloop, hmap, hent⟩ :=
      mapRangeLoop_error_split p v fl n 0 st e st' h
    refine ⟨k, stk, hk, hloop, ?_, hent⟩
    rw [Nat.zero_add] at hmap
    exact hmap
  · intro v n st e st' h
    obtain ⟨k, stk, hk, hloop, hunmap, hent⟩ :=
      unmapRangeLoop_error_split v n 0 st e st' h
    refine ⟨k, stk, hk, hloop, ?_, hent⟩
    rw [Nat.zero_add] at hunmap
    exact hunmap

/-- Concrete instance of the no-rollback theorem, with a one-page range and
a one-section list failing at the first allocation. -/
theorem allocation_failure_no_rollback_witness :
    (∃ k stk, k < 1
       ∧ VMem.map_range 0 0 k 0 ⟨[false], []⟩ = (Except.ok (), stk)
       ∧ VMem.map (0 + k * PAGE_SIZE) (0 + k * PAGE_SIZE) 0 stk
           = (Except.error AllocError.mk, (⟨[], []⟩ : VMemState))
       ∧ (⟨[], []⟩ : VMemState).entries = stk.entries)
    ∧ (∃ k stk, k < 1
       ∧ VMem.unmap_range 0 k ⟨[false], []⟩ = (Except.ok (), stk)
       ∧ VMem.unmap (0 + k * PAGE_SIZE) stk
           = (Except.error AllocError.mk, (⟨[], []⟩ : VMemState))
       ∧ (⟨[], []⟩ : VMemState).entries = stk.entries)
    ∧ (∃ pre sec post stk, [secReadOnly] = pre ++ sec :: post
       ∧ VMem.protect_kernel pre ⟨[false], []⟩ = (Except.ok (), stk)
       ∧ sec.sh_flags &&& SHF_WRITE = 0 ∧ sec.sh_addralign = PAGE_SIZE
       ∧ VMem.map_range (kern_to_phys sec.sh_addr)
           (kern_to_virt sec.sh_addr) (ceil_div sec.sh_size PAGE_SIZE)
           FLAG_USER stk
           = (Except.error AllocError.mk, (⟨[], []⟩ : VMemState))) :=
  ⟨allocation_failure_no_rollback.1 0 0 1 0 ⟨[false], []⟩ AllocError.mk
     ⟨[], []⟩ rfl,
   allocation_failure_no_rollback.2.1 0 1 ⟨[false], []⟩ AllocError.mk
     ⟨[], []⟩ rfl,
   allocation_failure_no_rollback.2.2 [secReadOnly] ⟨[false], []⟩
     AllocError.mk ⟨[], []⟩ rfl⟩

/-- C3: `protect_kernel` skips every writable or misaligned section without
treating it as an error, remaps every page-aligned non-writable section via
`map_range` with the user-inaccessible flag, and in the spec's scenario of
one writable section and one page-aligned read-only section, only the
read-only section's page gains the restricted mapping while every other
page — the writable section's included — is unchanged. -/
theorem protect_kernel_section_selection :
    (∀ (sec : ELF32SectionHeader) (rest : List ELF32SectionHeader)
       (st : VMemState),
       sec.sh_flags &&& SHF_WRITE ≠ 0 ∨ sec.sh_addralign ≠ PAGE_SIZE →
       VMem.protect_kernel (sec :: rest) st = VMem.protect_kernel rest st)
    ∧ (∀ (sec : ELF32SectionHeader) (rest : List ELF32SectionHeader)
         (st : VMemState) (st1 : VMemState),
       sec.sh_flags &&& SHF_WRITE = 0 → sec.sh_addralign = PAGE_SIZE →
       VMem.map_range (kern_to_phys sec.sh_addr) (kern_to_virt sec.sh_addr)
           (ceil_div sec.sh_size PAGE_SIZE) FLAG_USER st
         = (Except.ok (), st1) →
       VMem.protect_kernel (sec :: rest) st = VMem.protect_kernel rest st1)
    ∧ (VMem.protect_kernel [secWritable, secReadOnly] (new [])
         = (Except.ok (),
            (⟨[], [(0xc0200, some (0x200, FLAG_USER))]⟩ : VMemState))
       ∧ entryAt (VMem.protect_kernel [secWritable, secReadOnly] (new [])).2
           0xc0200 = some (0x200, FLAG_USER)
       ∧ (∀ vp, vp ≠ 0xc0200 →
           entryAt (VMem.protect_kernel [secWritable, secReadOnly]
             (new [])).2 vp = entryAt (new []) vp)) := by
  refine ⟨?_, ?_, ?_, ?_, ?_⟩
  · intro sec rest st hc
    rw [VMem.protect_kernel, if_pos hc]
  · intro sec rest st st1 hf ha hmr
    rw [VMem.protect_kernel, if_neg]
    · rw [hmr]
    · simp [hf, ha]
  · rfl
  · rfl
  · intro vp hvp
    have hres : (VMem.protect_kernel [secWritable, secReadOnly] (new [])).2
        = (⟨[], [(0xc0200, some (0x200, FLAG_USER))]⟩ : VMemState) := rfl
    rw [hres]
    unfold entryAt new lookupEntry
    rw [if_neg]
    · rfl
    · exact fun hh => hvp hh.symm

/-- Concrete instance of the section-selection theorem: the writable section
is skipped, the read-only section is remapped, and the writable section's
page `0xc0100` keeps its original entry. -/
theorem protect_kernel_section_selection_witness :
    (secWritable.sh_flags &&& SHF_WRITE ≠ 0
       ∨ secWritable.sh_addralign ≠ PAGE_SIZE)
    ∧ VMem.protect_kernel [secWritable] (new [])
        = VMem.protect_kernel [] (new [])
    ∧ secReadOnly.sh_flags &&& SHF_WRITE = 0
    ∧ secReadOnly.sh_addralign = PAGE_SIZE
    ∧ VMem.protect_kernel [secReadOnly] (new [])
        = VMem.protect_kernel []
            (⟨[], [(0xc0200, some (0x200, FLAG_USER))]⟩ : VMemState)
    ∧ entryAt (VMem.protect_kernel [secWritable, secReadOnly] (new [])).2
        0xc0100 = entryAt (new []) 0xc0100 :=
  ⟨Or.inl (by decide),
   protect_kernel_section_selection.1 secWritable [] (new [])
     (Or.inl (by decide)),
   by decide, by decide,
   protect_kernel_section_selection.2.1 secReadOnly [] (new [])
     ⟨[], [(0xc0200, some (0x200, FLAG_USER))]⟩ (by decide) (by decide) rfl,
   protect_kernel_section_selection.2.2.2.2 0xc0100 (by decide)⟩
